import Mathlib

/-!
Verification of the LP primal-dual pipeline in
`P3_LEFEBVRE_Romain_Group_B.py`.

Reals are modelled as rationals (ℚ). numpy arrays are modelled as lists;
a 2-D array is a list of rows, and its recorded column count (part of the
numpy shape) is passed explicitly where the code uses `.T`. `np.isclose`
is modelled with its default tolerances rtol = 1e-5, atol = 1e-8.
A Python function that can raise is modelled as `Except String`.
-/

namespace P3

/-- np.dot on two 1-D vectors. -/
def dot (a x : List ℚ) : ℚ := (List.zipWith (fun p q => p * q) a x).sum

/-- Default absolute tolerance of np.isclose (1e-8). -/
def atol : ℚ := 1 / 100000000

/-- Default relative tolerance of np.isclose (1e-5). -/
def rtol : ℚ := 1 / 100000

/-- np.isclose(a, b) with default tolerances: |a - b| <= atol + rtol * |b|. -/
def isclose (a b : ℚ) : Bool := decide (|a - b| ≤ atol + rtol * |b|)

/-- One constraint row of `verify_feasibility`: true when the row triggers
one of the three early `return False` tests in the loop body. A sign that
matches none of the three tests never triggers a violation. -/
def rowViolated (row : List ℚ) (bi : ℚ) (sign : String) (x : List ℚ) : Bool :=
  if sign = "<=" then decide (bi < dot row x)
  else if sign = ">=" then decide (dot row x < bi)
  else if sign = "=" then ! isclose (dot row x) bi
  else false

/-- The `for i, sign in enumerate(constraint_signs)` loop of
`verify_feasibility`: returns false at the first violated row. -/
def feasLoop (x : List ℚ) : List (List ℚ × ℚ × String) → Bool
  | [] => true
  | t :: rest => if rowViolated t.1 t.2.1 t.2.2 x then false else feasLoop x rest

/-- Rows, rhs entries and signs walked in lockstep, as the loop indexes
`A[i]`, `b[i]` together with `sign`; dimensions are validated upstream. -/
def zip3 (A : List (List ℚ)) (b : List ℚ) (signs : List String) :
    List (List ℚ × ℚ × String) :=
  A.zip (b.zip signs)

/-- Embedding of `verify_feasibility(A, b, constraint_signs, possible_sol)`. -/
def verify_feasibility (A : List (List ℚ)) (b : List ℚ) (signs : List String)
    (x : List ℚ) : Bool :=
  feasLoop x (zip3 A b signs)

lemma dot_nil (x : List ℚ) : dot [] x = 0 := rfl

lemma dot_cons (a : ℚ) (r : List ℚ) (y : ℚ) (x : List ℚ) :
    dot (a :: r) (y :: x) = a * y + dot r x := by
  simp [dot, List.zipWith]

/-- The short-circuiting loop computes the same boolean as the full
conjunction over all rows. -/
lemma feasLoop_eq_all (x : List ℚ) (l : List (List ℚ × ℚ × String)) :
    feasLoop x l = l.all (fun t => ! rowViolated t.1 t.2.1 t.2.2 x) := by
  induction l with
  | nil => rfl
  | cons t rest ih =>
      by_cases h : rowViolated t.1 t.2.1 t.2.2 x
      · simp [feasLoop, h]
      · simp [feasLoop, h, ih]

lemma zip3_nil (b : List ℚ) (signs : List String) : zip3 [] b signs = [] := rfl

lemma zip3_cons (row : List ℚ) (A : List (List ℚ)) (bi : ℚ) (b : List ℚ)
    (s : String) (signs : List String) :
    zip3 (row :: A) (bi :: b) (s :: signs) = (row, bi, s) :: zip3 A b signs := rfl

/-- numpy `.T` of a matrix stored as a list of rows, with `ncols` the
column count recorded in the array's shape: result row i collects entry i
of every original row. -/
def transposeN (ncols : ℕ) (A : List (List ℚ)) : List (List ℚ) :=
  (List.range ncols).map (fun i => A.map (fun row => row.getD i 0))

/-- The sign branch of the loop in `transpose_to_dual`: flips a
recognized constraint sign, raises ValueError otherwise. -/
def flipSign (s : String) : Except String String :=
  if s = "<=" then Except.ok ">="
  else if s = ">=" then Except.ok "<="
  else if s = "=" then Except.ok "="
  else Except.error ("Invalid constraint sign: " ++ s)

/-- Total flip on the three recognized signs (value on other strings is
irrelevant: `flipSign` raises there). -/
def flipSpec (s : String) : String :=
  if s = "<=" then ">=" else if s = ">=" then "<=" else "="

/-- Embedding of `transpose_to_dual(c, A, b, constraint_signs, problem_type)`.
`ncols` is the column count of `A` (part of the numpy array's shape,
used by `A.T`); `problem_type` is accepted and never read, as in the
source. Returns `(dual_c, dual_A, dual_b, dual_signs)` where in the code
`dual_c = b`, `dual_A = A.T`, `dual_b = c`, and the loop over
`constraint_signs` flips each sign or raises ValueError. -/
def transpose_to_dual (c : List ℚ) (A : List (List ℚ)) (ncols : ℕ)
    (b : List ℚ) (signs : List String) (problem_type : String) :
    Except String (List ℚ × List (List ℚ) × List ℚ × List String) :=
  match signs.mapM flipSign with
  | Except.error msg => Except.error msg
  | Except.ok dual_signs => Except.ok (b, transposeN ncols A, c, dual_signs)

/-- Entrywise negation of a vector, `-b` in numpy. -/
def negVec (b : List ℚ) : List ℚ := b.map (fun v => -v)

/-- Entrywise negation of a matrix, `-A_T` in numpy. -/
def negMat (M : List (List ℚ)) : List (List ℚ) := M.map negVec

/-- The argument triple `(c, A_ub, b_ub)` that `solve_dual(A_T, b, c)`
passes to `linprog(c, A_ub=-A_T, b_ub=-b, method='highs')`. -/
def linprog_call (A_T : List (List ℚ)) (b c : List ℚ) :
    List ℚ × List (List ℚ) × List ℚ :=
  (c, negMat A_T, negVec b)

/-- Embedding of `solve_dual` with the external solver abstracted as an oracle taking
the `(c, A_ub, b_ub)` triple and returning a point or failure. -/
def solve_dual (solver : List ℚ → List (List ℚ) → List ℚ → Option (List ℚ))
    (A_T : List (List ℚ)) (b c : List ℚ) : Option (List ℚ) :=
  solver (linprog_call A_T b c).1 (linprog_call A_T b c).2.1
    (linprog_call A_T b c).2.2

/-- A point satisfies upper-bound constraints `M x <= r` (the form
`linprog` receives through `A_ub`, `b_ub`). -/
def satisfiesUb (M : List (List ℚ)) (r : List ℚ) (x : List ℚ) : Bool :=
  (M.zip r).all (fun p => decide (dot p.1 x ≤ p.2))

/-- A point satisfies lower-bound constraints `M x >= r`. -/
def satisfiesGe (M : List (List ℚ)) (r : List ℚ) (x : List ℚ) : Bool :=
  (M.zip r).all (fun p => decide (p.2 ≤ dot p.1 x))

/-- Embedding of `check_optimality(primal_sol, dual_sol, c, b)`: returns
`(np.isclose(primal_obj_value, dual_obj_value), primal_obj_value,
dual_obj_value)`. -/
def check_optimality (primal_sol dual_sol c b : List ℚ) : Bool × ℚ × ℚ :=
  (isclose (dot c primal_sol) (dot b dual_sol),
    dot c primal_sol, dot b dual_sol)

/-- Embedding of `validate_inputs(args)`: the five length checks, in source order;
the first failing one raises ValueError. -/
def validate_inputs (num_vars num_constraints : ℕ) (c A b : List ℚ)
    (signs : List String) (possible_sol : List ℚ) : Except String Unit :=
  if c.length ≠ num_vars then
    Except.error "Objective function coefficients (c) must have num_vars entries."
  else if A.length ≠ num_constraints * num_vars then
    Except.error "Constraint coefficients (A) must have num_constraints * num_vars entries."
  else if b.length ≠ num_constraints then
    Except.error "Constraint RHS values (b) must have num_constraints entries."
  else if signs.length ≠ num_constraints then
    Except.error "Constraint signs must have num_constraints entries."
  else if possible_sol.length ≠ num_vars then
    Except.error "Possible solution must have num_vars entries."
  else Except.ok ()

/-- Embedding of `reshape_constraints(A, num_constraints, num_vars)`: row-major
reshape of the flat coefficient list into an M×N matrix. -/
def reshape_constraints (A : List ℚ) (num_constraints num_vars : ℕ) :
    List (List ℚ) :=
  (List.range num_constraints).map
    (fun i => (List.range num_vars).map (fun j => A.getD (i * num_vars + j) 0))

/-- Pipeline stages of `main`, recorded in execution order. -/
inductive Stage where
  | reshape
  | feasibility
  | dualTransform
  | solverCall
  | optimality
  deriving DecidableEq

/-- Terminal outcome of a `main` run. -/
inductive Outcome where
  | shapeError (msg : String)
  | invalidRelation (msg : String)
  | infeasible
  | solveFailed
  | report (isOptimal : Bool) (primalObj dualObj : ℚ)
  deriving DecidableEq

/-- Embedding of `main()`, with parsed arguments as parameters and the external solver
as an oracle. Returns the terminal outcome together with the list of
pipeline stages that ran, in order. -/
def main (solver : List ℚ → List (List ℚ) → List ℚ → Option (List ℚ))
    (num_vars num_constraints : ℕ) (c A b : List ℚ) (signs : List String)
    (possible_sol : List ℚ) (ptype : String) : Outcome × List Stage :=
  match validate_inputs num_vars num_constraints c A b signs possible_sol with
  | Except.error msg => (Outcome.shapeError msg, [])
  | Except.ok _ =>
    let Am := reshape_constraints A num_constraints num_vars
    if verify_feasibility Am b signs possible_sol then
      match transpose_to_dual c Am num_vars b signs ptype with
      | Except.error msg =>
          (Outcome.invalidRelation msg, [Stage.reshape, Stage.feasibility])
      | Except.ok (dual_c, dual_A, dual_b, _) =>
        match solve_dual solver dual_A dual_b dual_c with
        | none =>
            (Outcome.solveFailed,
              [Stage.reshape, Stage.feasibility, Stage.dualTransform,
                Stage.solverCall])
        | some dual_solution =>
            let r := check_optimality possible_sol dual_solution c b
            (Outcome.report r.1 r.2.1 r.2.2,
              [Stage.reshape, Stage.feasibility, Stage.dualTransform,
                Stage.solverCall, Stage.optimality])
    else (Outcome.infeasible, [Stage.reshape, Stage.feasibility])

lemma negVec_nil : negVec [] = [] := rfl

lemma negVec_cons (a : ℚ) (r : List ℚ) : negVec (a :: r) = (-a) :: negVec r := rfl

lemma dot_negVec (r : List ℚ) : ∀ x : List ℚ, dot (negVec r) x = -(dot r x) := by
  induction r with
  | nil => intro x; simp [negVec, dot]
  | cons a r ih =>
      intro x
      cases x with
      | nil => simp [negVec, dot]
      | cons y x => rw [negVec_cons, dot_cons, dot_cons, ih]; ring

/-- Negating matrix and rhs turns the upper-bound form into the
lower-bound form: `(-M) x <= -r` holds exactly when `M x >= r`. -/
lemma satisfiesUb_neg (M : List (List ℚ)) (r x : List ℚ) :
    satisfiesUb (negMat M) (negVec r) x = satisfiesGe M r x := by
  unfold satisfiesUb satisfiesGe negMat negVec
  rw [List.zip_map, List.all_map]
  congr 1
  funext p
  have hd : dot (List.map (fun v => -v) p.1) x = -(dot p.1 x) := dot_negVec p.1 x
  simp only [Function.comp, Prod.map, hd]
  exact decide_eq_decide.mpr neg_le_neg_iff

/-- Row non-violation, spelled per relation symbol. -/
lemma not_rowViolated_iff (row : List ℚ) (bi : ℚ) (s : String) (x : List ℚ)
    (hs : s = "<=" ∨ s = "=" ∨ s = ">=") :
    ((! rowViolated row bi s x) = true) ↔
      ((s = "<=" → dot row x ≤ bi) ∧ (s = ">=" → bi ≤ dot row x) ∧
        (s = "=" → isclose (dot row x) bi = true)) := by
  rcases hs with h | h | h <;> subst h <;> simp [rowViolated, not_lt]

/-- The feasibility loop, characterized row by row through indices. -/
lemma verify_feasibility_iff_getD :
    ∀ (signs : List String) (A : List (List ℚ)) (b : List ℚ) (x : List ℚ),
    A.length = signs.length → b.length = signs.length →
    (∀ s ∈ signs, s = "<=" ∨ s = "=" ∨ s = ">=") →
    (verify_feasibility A b signs x = true ↔
      ∀ i, i < signs.length →
        ((signs.getD i "" = "<=" → dot (A.getD i []) x ≤ b.getD i 0) ∧
          (signs.getD i "" = ">=" → b.getD i 0 ≤ dot (A.getD i []) x) ∧
          (signs.getD i "" = "=" →
            isclose (dot (A.getD i []) x) (b.getD i 0) = true))) := by
  intro signs
  induction signs with
  | nil =>
      intro A b x hA hb _
      simp [verify_feasibility, List.length_eq_zero.mp hA, zip3, feasLoop]
  | cons s signs ih =>
      intro A b x hA hb hs
      cases A with
      | nil => exact absurd hA (by simp)
      | cons row A2 =>
        cases b with
        | nil => exact absurd hb (by simp)
        | cons bi b2 =>
          have hA2 : A2.length = signs.length := by
            simpa using hA
          have hb2 : b2.length = signs.length := by
            simpa using hb
          have hshead : s = "<=" ∨ s = "=" ∨ s = ">=" :=
            hs s (List.mem_cons_self s signs)
          have hstail : ∀ t ∈ signs, t = "<=" ∨ t = "=" ∨ t = ">=" :=
            fun t ht => hs t (List.mem_cons_of_mem s ht)
          have hrec := ih A2 b2 x hA2 hb2 hstail
          have hsplit : verify_feasibility (row :: A2) (bi :: b2) (s :: signs) x
              = ((! rowViolated row bi s x)
                  && verify_feasibility A2 b2 signs x) := by
            unfold verify_feasibility
            rw [zip3_cons, feasLoop_eq_all, feasLoop_eq_all]
            simp [List.all_cons]
          rw [hsplit, Bool.and_eq_true, not_rowViolated_iff row bi s x hshead,
            hrec]
          constructor
          · rintro ⟨hhead, htail⟩ i hi
            cases i with
            | zero => simpa using hhead
            | succ j =>
                have hj : j < signs.length := Nat.lt_of_succ_lt_succ hi
                simpa using htail j hj
          · intro h
            refine ⟨by simpa using h 0 (Nat.succ_pos _), ?_⟩
            intro j hj
            simpa using h (j + 1) (Nat.succ_lt_succ hj)

/-- A permutation of the row list leaves `List.all` unchanged. -/
lemma all_of_perm {α : Type} (p : α → Bool) {l1 l2 : List α}
    (h : l1.Perm l2) : l1.all p = l2.all p := by
  induction h with
  | nil => rfl
  | cons a h ih => simp [List.all_cons, ih]
  | swap a c l => simp [List.all_cons, Bool.and_left_comm]
  | trans h1 h2 ih1 ih2 => exact ih1.trans ih2

/-- C2: with matching dimensions and recognized relation symbols, the
feasibility check returns true iff every row i satisfies its relation
against `lhs = dot(A[i], x)` — `<=` as `lhs ≤ b[i]`, `>=` as
`lhs ≥ b[i]`, `=` as np.isclose — and the short-circuiting loop equals
the full conjunction over all rows. -/
theorem verify_feasibility_spec (A : List (List ℚ)) (b : List ℚ)
    (signs : List String) (x : List ℚ)
    (hA : A.length = signs.length) (hb : b.length = signs.length)
    (hs : ∀ s ∈ signs, s = "<=" ∨ s = "=" ∨ s = ">=") :
    (verify_feasibility A b signs x = true ↔
      ∀ i, i < signs.length →
        ((signs.getD i "" = "<=" → dot (A.getD i []) x ≤ b.getD i 0) ∧
          (signs.getD i "" = ">=" → b.getD i 0 ≤ dot (A.getD i []) x) ∧
          (signs.getD i "" = "=" →
            isclose (dot (A.getD i []) x) (b.getD i 0) = true))) ∧
    verify_feasibility A b signs x
      = (zip3 A b signs).all (fun t => ! rowViolated t.1 t.2.1 t.2.2 x) :=
  ⟨verify_feasibility_iff_getD signs A b x hA hb hs,
    feasLoop_eq_all x (zip3 A b signs)⟩

/-- Witness for C2: the spec's scenario `A=[[1,0],[0,2],[3,2]]`,
`b=[4,12,18]`, all `<=`, candidate `[2,6]` is feasible. -/
theorem verify_feasibility_spec_witness :
    verify_feasibility [[1, 0], [0, 2], [3, 2]] [4, 12, 18]
      ["<=", "<=", "<="] [2, 6] = true :=
  ((verify_feasibility_spec [[1, 0], [0, 2], [3, 2]] [4, 12, 18]
      ["<=", "<=", "<="] [2, 6] (by decide) (by decide)
      (by decide)).1).mpr (by
        intro i hi
        simp only [List.length_cons, List.length_nil] at hi
        interval_cases i <;>
          exact ⟨fun _ => by norm_num [dot], fun h => absurd h (by decide),
            fun h => absurd h (by decide)⟩)

/-- C8: permuting constraint rows together with their rhs entries and
relation symbols never changes the feasibility verdict. -/
theorem verify_feasibility_perm_invariant (A A2 : List (List ℚ))
    (b b2 : List ℚ) (signs signs2 : List String) (x : List ℚ)
    (h : (zip3 A b signs).Perm (zip3 A2 b2 signs2)) :
    verify_feasibility A b signs x = verify_feasibility A2 b2 signs2 x := by
  unfold verify_feasibility
  rw [feasLoop_eq_all, feasLoop_eq_all]
  exact all_of_perm _ h

/-- Witness for C8: swapping the two rows of a concrete system leaves
the verdict unchanged. -/
theorem verify_feasibility_perm_invariant_witness :
    verify_feasibility [[1], [2]] [3, 4] ["<=", ">="] [1]
      = verify_feasibility [[2], [1]] [4, 3] [">=", "<="] [1] :=
  verify_feasibility_perm_invariant [[1], [2]] [[2], [1]] [3, 4] [4, 3]
    ["<=", ">="] [">=", "<="] [1] (by decide)

/-- C10: the feasibility check is total; a row whose relation symbol is
outside the three recognized ones matches none of the violation tests,
so it imposes no restriction and the row is treated as satisfied. -/
theorem invalid_sign_imposes_no_restriction (row : List ℚ) (bi : ℚ)
    (sign : String) (A : List (List ℚ)) (b : List ℚ) (signs : List String)
    (x : List ℚ) (h1 : sign ≠ "<=") (h2 : sign ≠ ">=") (h3 : sign ≠ "=") :
    rowViolated row bi sign x = false ∧
    verify_feasibility (row :: A) (bi :: b) (sign :: signs) x
      = verify_feasibility A b signs x := by
  have hrv : rowViolated row bi sign x = false := by
    simp [rowViolated, h1, h2, h3]
  refine ⟨hrv, ?_⟩
  unfold verify_feasibility
  rw [zip3_cons]
  simp [feasLoop, hrv]

/-- Witness for C10: a problem whose only relation symbol is the invalid
`!=` reports the candidate `[7]` feasible, although `dot [1] [7] ≠ 0`. -/
theorem invalid_sign_imposes_no_restriction_witness :
    rowViolated [1] 0 "!=" [7] = false ∧
    verify_feasibility [[1]] [0] ["!="] [7] = verify_feasibility [] [] [] [7] ∧
    verify_feasibility [[1]] [0] ["!="] [7] = true := by
  have h := invalid_sign_imposes_no_restriction [1] 0 "!=" [] [] [] [7]
    (by decide) (by decide) (by decide)
  exact ⟨h.1, h.2, by decide⟩

/-- C9: the dual transform is independent of the optimization direction:
running `transpose_to_dual` with any two values of the `problem_type`
argument yields identical results, since the function never reads it. -/
theorem transpose_to_dual_direction_independent (c : List ℚ)
    (A : List (List ℚ)) (ncols : ℕ) (b : List ℚ) (signs : List String)
    (t1 t2 : String) :
    transpose_to_dual c A ncols b signs t1
      = transpose_to_dual c A ncols b signs t2 := rfl

/-- On recognized signs, the flip loop succeeds and computes `flipSpec`
pointwise. -/
lemma mapM_flipSign_ok : ∀ (signs : List String),
    (∀ s ∈ signs, s = "<=" ∨ s = "=" ∨ s = ">=") →
    signs.mapM flipSign = Except.ok (signs.map flipSpec) := by
  intro signs
  induction signs with
  | nil => intro _; rfl
  | cons s rest ih =>
      intro hs
      have hhead := hs s (List.mem_cons_self s rest)
      have htail := ih (fun t ht => hs t (List.mem_cons_of_mem s ht))
      have hflip : flipSign s = Except.ok (flipSpec s) := by
        rcases hhead with h | h | h <;> subst h <;> rfl
      rw [List.mapM_cons, hflip, htail]
      rfl

/-- The flip loop raises at some sign whenever an unrecognized sign is
present. -/
lemma mapM_flipSign_error : ∀ (signs : List String),
    (∃ s ∈ signs, s ≠ "<=" ∧ s ≠ ">=" ∧ s ≠ "=") →
    ∃ msg, signs.mapM flipSign = Except.error msg := by
  intro signs
  induction signs with
  | nil => rintro ⟨s, hs, _⟩; simp at hs
  | cons s rest ih =>
      rintro ⟨t, ht, h1, h2, h3⟩
      rcases List.mem_cons.mp ht with rfl | htr
      · refine ⟨"Invalid constraint sign: " ++ t, ?_⟩
        have hfs : flipSign t = Except.error ("Invalid constraint sign: " ++ t) := by
          simp [flipSign, h1, h2, h3]
        rw [List.mapM_cons, hfs]
        rfl
      · cases hfs : flipSign s with
        | error msg =>
            refine ⟨msg, ?_⟩
            rw [List.mapM_cons, hfs]
            rfl
        | ok y =>
            obtain ⟨msg, hmsg⟩ := ih ⟨t, htr, h1, h2, h3⟩
            refine ⟨msg, ?_⟩
            rw [List.mapM_cons, hfs, hmsg]
            rfl

lemma transposeN_length (n : ℕ) (A : List (List ℚ)) :
    (transposeN n A).length = n := by
  simp [transposeN]

lemma transposeN_row (n : ℕ) (A : List (List ℚ)) (i : ℕ) (hi : i < n) :
    (transposeN n A).getD i [] = A.map (fun row => row.getD i 0) := by
  unfold transposeN
  have hlen : i < ((List.range n).map
      (fun i => A.map (fun row => row.getD i 0))).length := by
    simpa using hi
  rw [List.getD_eq_getElem _ _ hlen, List.getElem_map, List.getElem_range]

/-- C1: on a well-formed primal (M rows of N coefficients, recognized
relation symbols), the dual transform returns exactly
`(b, transpose A, c, flipped signs)`: the dual objective is the primal
rhs, the dual matrix is the N×M transpose with entry `[i][j] = A[j][i]`,
the dual rhs is the primal objective, and dual relation i is the flip of
primal relation i, where flip exchanges `<=` and `>=` and fixes `=`. -/
theorem transpose_to_dual_spec (c : List ℚ) (A : List (List ℚ)) (m n : ℕ)
    (b : List ℚ) (signs : List String) (pt : String)
    (hA : A.length = m) (hc : c.length = n) (hb : b.length = m)
    (hsigns : signs.length = m)
    (hs : ∀ s ∈ signs, s = "<=" ∨ s = "=" ∨ s = ">=") :
    transpose_to_dual c A n b signs pt
      = Except.ok (b, transposeN n A, c, signs.map flipSpec) ∧
    (transposeN n A).length = n ∧
    (∀ row ∈ transposeN n A, row.length = m) ∧
    (∀ i j, i < n → j < m →
      ((transposeN n A).getD i []).getD j 0 = (A.getD j []).getD i 0) ∧
    (signs.map flipSpec).length = m ∧
    (∀ i, i < m →
      (signs.map flipSpec).getD i "" = flipSpec (signs.getD i "")) ∧
    flipSpec "<=" = ">=" ∧ flipSpec ">=" = "<=" ∧ flipSpec "=" = "=" := by
  subst hA
  refine ⟨?_, transposeN_length n A, ?_, ?_, by simp [hsigns], ?_, rfl, rfl, rfl⟩
  · unfold transpose_to_dual
    rw [mapM_flipSign_ok signs hs]
  · intro row hrow
    simp only [transposeN, List.mem_map] at hrow
    obtain ⟨i, _, rfl⟩ := hrow
    simp
  · intro i j hi hj
    rw [transposeN_row n A i hi]
    have hj2 : j < (A.map (fun row => row.getD i 0)).length := by
      simpa using hj
    rw [List.getD_eq_getElem _ _ hj2, List.getElem_map,
      ← List.getD_eq_getElem A [] hj]
  · intro i hi
    have hi3 : i < signs.length := by omega
    have hi2 : i < (signs.map flipSpec).length := by simpa using hi3
    rw [List.getD_eq_getElem _ _ hi2, List.getElem_map,
      ← List.getD_eq_getElem signs "" hi3]

/-- Witness for C1: the spec's scenario, `c=[3,5]`,
`A=[[1,0],[0,2],[3,2]]`, `b=[4,12,18]`, all `<=`: the dual is
`([4,12,18], [[1,0,3],[0,2,2]], [3,5], [">=",">=",">="])`. -/
theorem transpose_to_dual_spec_witness :
    transpose_to_dual [3, 5] [[1, 0], [0, 2], [3, 2]] 2 [4, 12, 18]
      ["<=", "<=", "<="] "max"
      = Except.ok ([4, 12, 18], transposeN 2 [[1, 0], [0, 2], [3, 2]],
          [3, 5], ["<=", "<=", "<="].map flipSpec) ∧
    transposeN 2 [[1, 0], [0, 2], [3, 2]] = [[1, 0, 3], [0, 2, 2]] ∧
    ["<=", "<=", "<="].map flipSpec = [">=", ">=", ">="] := by
  refine ⟨(transpose_to_dual_spec [3, 5] [[1, 0], [0, 2], [3, 2]] 3 2
    [4, 12, 18] ["<=", "<=", "<="] "max" (by decide) (by decide) (by decide)
    (by decide) (by decide)).1, by decide, by decide⟩

/-- C3 (amended): an input whose relation list contains a symbol outside
the three recognized ones raises the InvalidRelationError in the dual
transform; the feasibility check never raises. -/
theorem invalid_relation_error_in_dual_transform (c : List ℚ)
    (A : List (List ℚ)) (n : ℕ) (b : List ℚ) (signs : List String)
    (pt : String) (h : ∃ s ∈ signs, s ≠ "<=" ∧ s ≠ ">=" ∧ s ≠ "=") :
    ∃ msg, transpose_to_dual c A n b signs pt = Except.error msg := by
  obtain ⟨msg, hm⟩ := mapM_flipSign_error signs h
  refine ⟨msg, ?_⟩
  unfold transpose_to_dual
  rw [hm]

/-- Witness for C3 (amended): a relation list containing the
unrecognized symbol `!!` makes the dual transform raise. -/
theorem invalid_relation_error_in_dual_transform_witness :
    ∃ msg, transpose_to_dual [1] [[1]] 1 [2] ["<=", "!!"] "min"
      = Except.error msg :=
  invalid_relation_error_in_dual_transform [1] [[1]] 1 [2] ["<=", "!!"] "min"
    ⟨"!!", by decide⟩

/-- Counterexample to C3 as stated: with relation list `["!="]` the
feasibility check raises nothing — it completes normally, even reporting
the candidate feasible — and the InvalidRelationError arises only later,
in the dual transform. -/
theorem invalid_relation_not_raised_in_feasibility :
    verify_feasibility [[1]] [5] ["!="] [2] = true ∧
    transpose_to_dual [1] [[1]] 1 [5] ["!="] "max"
      = Except.error "Invalid constraint sign: !=" := by
  exact ⟨by decide, rfl⟩

/-- C4: `check_optimality` returns the primal objective value
`dot(c, primal_sol)` and the dual objective value `dot(b, dual_sol)`,
and its boolean is true exactly when the two values are within the
np.isclose tolerance, false exactly when the difference exceeds it. -/
theorem check_optimality_spec (primal_sol dual_sol c b : List ℚ) :
    (check_optimality primal_sol dual_sol c b).2.1 = dot c primal_sol ∧
    (check_optimality primal_sol dual_sol c b).2.2 = dot b dual_sol ∧
    ((check_optimality primal_sol dual_sol c b).1 = true ↔
      |dot c primal_sol - dot b dual_sol| ≤ atol + rtol * |dot b dual_sol|) ∧
    ((check_optimality primal_sol dual_sol c b).1 = false ↔
      atol + rtol * |dot b dual_sol| < |dot c primal_sol - dot b dual_sol|) := by
  refine ⟨rfl, rfl, ?_, ?_⟩
  · simp [check_optimality, isclose]
  · simp [check_optimality, isclose, not_le]

/-- C5: the call into the external solver poses the dual as a
>=-constrained minimization by negating both the constraint matrix and
the rhs: `linprog` receives `(c, -A_T, -b)`, the objective unchanged, and
a point satisfies the posed upper-bound constraints `-A_T x <= -b`
exactly when it satisfies `A_T x >= b`. -/
theorem solve_dual_poses_ge_minimization (A_T : List (List ℚ)) (b c x : List ℚ)
    (solver : List ℚ → List (List ℚ) → List ℚ → Option (List ℚ)) :
    (linprog_call A_T b c).1 = c ∧
    (linprog_call A_T b c).2.1 = negMat A_T ∧
    (linprog_call A_T b c).2.2 = negVec b ∧
    satisfiesUb (linprog_call A_T b c).2.1 (linprog_call A_T b c).2.2 x
      = satisfiesGe A_T b x ∧
    solve_dual solver A_T b c = solver c (negMat A_T) (negVec b) := by
  exact ⟨rfl, rfl, rfl, satisfiesUb_neg A_T b x, rfl⟩

/-- The check `validate_inputs` succeeds exactly when all five declared dimensions
hold. -/
lemma validate_inputs_ok_iff (nv nc : ℕ) (c A b : List ℚ)
    (signs : List String) (sol : List ℚ) :
    validate_inputs nv nc c A b signs sol = Except.ok () ↔
      (c.length = nv ∧ A.length = nc * nv ∧ b.length = nc ∧
        signs.length = nc ∧ sol.length = nv) := by
  unfold validate_inputs
  split_ifs with h1 h2 h3 h4 h5 <;> simp_all

/-- C6: when any declared dimension is violated, `main` stops with a
shape error before any pipeline stage: no matrix construction, no
feasibility evaluation, no dual transform, no solver call. -/
theorem shape_error_stops_pipeline
    (solver : List ℚ → List (List ℚ) → List ℚ → Option (List ℚ))
    (nv nc : ℕ) (c A b : List ℚ) (signs : List String) (sol : List ℚ)
    (pt : String)
    (h : c.length ≠ nv ∨ A.length ≠ nc * nv ∨ b.length ≠ nc ∨
      signs.length ≠ nc ∨ sol.length ≠ nv) :
    (∃ msg, (main solver nv nc c A b signs sol pt).1
      = Outcome.shapeError msg) ∧
    (main solver nv nc c A b signs sol pt).2 = [] := by
  cases hv : validate_inputs nv nc c A b signs sol with
  | error msg =>
      constructor
      · exact ⟨msg, by simp [main, hv]⟩
      · simp [main, hv]
  | ok u =>
      exfalso
      cases u
      have hok := (validate_inputs_ok_iff nv nc c A b signs sol).mp hv
      rcases h with h | h | h | h | h <;> tauto

/-- Witness for C6: an objective of length 1 declared over 2 variables
stops the run with a shape error and an empty stage trace. -/
theorem shape_error_stops_pipeline_witness :
    (∃ msg, (main (fun _ _ _ => none) 2 1 [1] [1, 1] [1] ["<="] [1, 2]
      "max").1 = Outcome.shapeError msg) ∧
    (main (fun _ _ _ => none) 2 1 [1] [1, 1] [1] ["<="] [1, 2] "max").2
      = [] :=
  shape_error_stops_pipeline (fun _ _ _ => none) 2 1 [1] [1, 1] [1] ["<="]
    [1, 2] "max" (Or.inl (by decide))

/-- C7: the pipeline short-circuits one-way. An infeasible candidate
stops the run after the feasibility stage with the infeasibility
outcome — dual transform, solver call and optimality never run. A
solver failure stops the run before the optimality stage with the
failure outcome. The optimality report arises only on the single
success path: feasible candidate, successful transform, solver
solution. -/
theorem main_short_circuits
    (solver : List ℚ → List (List ℚ) → List ℚ → Option (List ℚ))
    (nv nc : ℕ) (c A b : List ℚ) (signs : List String) (sol : List ℚ)
    (pt : String)
    (hv : validate_inputs nv nc c A b signs sol = Except.ok ()) :
    (verify_feasibility (reshape_constraints A nc nv) b signs sol = false →
      (main solver nv nc c A b signs sol pt).1 = Outcome.infeasible ∧
      (main solver nv nc c A b signs sol pt).2
        = [Stage.reshape, Stage.feasibility]) ∧
    (∀ dc dA db ds,
      verify_feasibility (reshape_constraints A nc nv) b signs sol = true →
      transpose_to_dual c (reshape_constraints A nc nv) nv b signs pt
        = Except.ok (dc, dA, db, ds) →
      solve_dual solver dA db dc = none →
      (main solver nv nc c A b signs sol pt).1 = Outcome.solveFailed ∧
      Stage.optimality ∉ (main solver nv nc c A b signs sol pt).2) ∧
    (∀ o p d,
      (main solver nv nc c A b signs sol pt).1 = Outcome.report o p d →
      verify_feasibility (reshape_constraints A nc nv) b signs sol = true ∧
      ∃ dc dA db ds dsol,
        transpose_to_dual c (reshape_constraints A nc nv) nv b signs pt
          = Except.ok (dc, dA, db, ds) ∧
        solve_dual solver dA db dc = some dsol) := by
  refine ⟨?_, ?_, ?_⟩
  · intro hf
    constructor <;> simp [main, hv, hf]
  · intro dc dA db ds hf hd hsolve
    constructor <;> simp [main, hv, hf, hd, hsolve]
  · intro o p d hrep
    by_cases hf : verify_feasibility (reshape_constraints A nc nv) b signs sol
    · refine ⟨hf, ?_⟩
      cases hd : transpose_to_dual c (reshape_constraints A nc nv) nv b signs
          pt with
      | error msg =>
          exfalso
          simp [main, hv, hf, hd] at hrep
      | ok q =>
          obtain ⟨dc, dA, db, ds⟩ := q
          cases hsolve : solve_dual solver dA db dc with
          | none =>
              exfalso
              simp [main, hv, hf, hd, hsolve] at hrep
          | some dsol => exact ⟨dc, dA, db, ds, dsol, rfl, hsolve⟩
    · exfalso
      simp only [Bool.not_eq_true] at hf
      simp [main, hv, hf] at hrep

/-- Witness for C7: candidate `[1]` violates `x <= 0`, so the run ends
infeasible with only the reshape and feasibility stages executed. -/
theorem main_short_circuits_witness :
    (main (fun _ _ _ => none) 1 1 [1] [1] [0] ["<="] [1] "max").1
      = Outcome.infeasible ∧
    (main (fun _ _ _ => none) 1 1 [1] [1] [0] ["<="] [1] "max").2
      = [Stage.reshape, Stage.feasibility] :=
  (main_short_circuits (fun _ _ _ => none) 1 1 [1] [1] [0] ["<="] [1] "max"
    rfl).1 (by
      norm_num [verify_feasibility, reshape_constraints, zip3, feasLoop,
        rowViolated, dot, List.range_succ])

end P3
